import Mathlib

/-!
Verification of `api/logs/v1/labels_enforcer.go` from observatorium-api:
the middleware that injects authorization label matchers into LogQL queries.

The enforcer itself (`enforceValues`, `WithEnforceAuthorizationLabels`) is
translated from the Go source.  The LogQL expression tree and its operations
(`ParseExpr`, `Walk`, `AppendMatchers`, `AppendPipelineMatchers`, `String`)
live in the repository's `logql/v2` package, which is not part of the sources
under review; those are modelled from the specification.  The external parser
and the JSON decoder are taken as parameters.
-/

/-- The comparison kind of a Prometheus label matcher
(`labels.MatchEqual`, `MatchNotEqual`, `MatchRegexp`, `MatchNotRegexp`). -/
inductive MatchType where
  | eq
  | neq
  | re
  | nre
deriving DecidableEq, Repr

/-- A Prometheus label matcher: an immutable (name, comparison kind, value) triple. -/
structure Matcher where
  mtype : MatchType
  name : String
  value : String
deriving DecidableEq, Repr

/-- `AuthzResponseData` from labels_enforcer.go: the decoded authorization
payload `{matchers, logicalOp}`. -/
structure AuthzResponseData where
  matchers : List Matcher
  logicalOp : String
deriving DecidableEq, Repr

/-- The module-level constant `logicalOr = "or"` from labels_enforcer.go. -/
def logicalOr : String := "or"

/-- Modelled from the spec: a pipeline stage of a LogQL query.  Pre-existing
stages (line filters, parsers, ...) are opaque to the enforcer and carried as
raw text; `matchersFilter chainOp ms` is the post-selection filter stage that
`AppendPipelineMatchers` appends, evaluating the matchers `ms` combined with
the chain operator `chainOp`. -/
inductive PipelineStage where
  | raw : String → PipelineStage
  | matchersFilter : String → List Matcher → PipelineStage
deriving DecidableEq, Repr

/-- Modelled from the spec: the LogQL expression tree produced by
`logqlv2.ParseExpr`.  Two variants matter to the enforcer: a Stream Selector
(`StreamMatcherExpr`, owning a matcher sequence) and a Pipeline
(`LogQueryExpr`, a selector plus an ordered stage sequence).  Other variants
(binary combinators of sub-queries, aggregations) are opaque wrappers whose
children the traversal still visits. -/
inductive Expr where
  | streamMatcher : List Matcher → Expr
  | logQuery : List Matcher → List PipelineStage → Expr
  | binOp : String → Expr → Expr → Expr
  | agg : String → Expr → Expr
deriving DecidableEq, Repr

/-- Modelled from the spec: `StreamMatcherExpr.AppendMatchers` appends the
given matchers to the selector's existing matcher sequence (existing matchers
first, appended matchers after). -/
def appendMatchers (sel ms : List Matcher) : List Matcher :=
  sel ++ ms

/-- Modelled from the spec: `LogQueryExpr.AppendPipelineMatchers` appends one
new post-selection filter stage, combining the given matchers with the chain
operator, to the end of the pipeline's existing stage sequence; an empty
matcher set must be a no-op producing no structural change (the constraint's
matcher set "must be non-empty for injection to have any effect"). -/
def appendPipelineMatchers (stages : List PipelineStage) (ms : List Matcher)
    (chainOp : String) : List PipelineStage :=
  if ms.isEmpty then stages else stages ++ [PipelineStage.matchersFilter chainOp ms]

/-- The OR-mode traversal of `enforceValues`: `expr.Walk` with a visitor that
calls `AppendPipelineMatchers(mInfo.Matchers, logicalOr)` on every
`LogQueryExpr` node and does nothing on any other node.  The depth-first walk
visits every node, including those nested inside binary and aggregation
wrappers. -/
def injectOr (ms : List Matcher) : Expr → Expr
  | Expr.streamMatcher sel => Expr.streamMatcher sel
  | Expr.logQuery sel stages => Expr.logQuery sel (appendPipelineMatchers stages ms logicalOr)
  | Expr.binOp op l r => Expr.binOp op (injectOr ms l) (injectOr ms r)
  | Expr.agg op e => Expr.agg op (injectOr ms e)

/-- The AND-mode traversal of `enforceValues`: `expr.Walk` with a visitor that
calls `AppendMatchers(mInfo.Matchers)` on every `StreamMatcherExpr` node and
does nothing on any other node.  The walk reaches the selector owned by a
`LogQueryExpr` as well, so selectors inside pipelines are extended too. -/
def injectAnd (ms : List Matcher) : Expr → Expr
  | Expr.streamMatcher sel => Expr.streamMatcher (appendMatchers sel ms)
  | Expr.logQuery sel stages => Expr.logQuery (appendMatchers sel ms) stages
  | Expr.binOp op l r => Expr.binOp op (injectAnd ms l) (injectAnd ms r)
  | Expr.agg op e => Expr.agg op (injectAnd ms e)

/-- The mode dispatch of `enforceValues`: `if mInfo.LogicalOp == logicalOr`
run the OR-mode walk, otherwise the AND-mode walk. -/
def injectConstraint (mInfo : AuthzResponseData) (e : Expr) : Expr :=
  if mInfo.logicalOp == logicalOr then injectOr mInfo.matchers e
  else injectAnd mInfo.matchers e

/-- Rendering of a matcher kind, as in the LogQL text form. -/
def MatchType.render : MatchType → String
  | MatchType.eq => "="
  | MatchType.neq => "!="
  | MatchType.re => "=~"
  | MatchType.nre => "!~"

/-- Modelled from the spec: text rendering of one matcher, `name op "value"`. -/
def Matcher.render (m : Matcher) : String :=
  m.name ++ m.mtype.render ++ "\"" ++ m.value ++ "\""

/-- Modelled from the spec: text rendering of a stream selector,
braces around the comma-separated matchers. -/
def renderSelector (ms : List Matcher) : String :=
  "\x7b" ++ String.intercalate ", " (ms.map Matcher.render) ++ "\x7d"

/-- Modelled from the spec: text rendering of one pipeline stage; an injected
filter stage renders its matchers joined by the chain operator, e.g.
`| a="1" or b="2"`. -/
def PipelineStage.render : PipelineStage → String
  | PipelineStage.raw s => s
  | PipelineStage.matchersFilter chainOp ms =>
      "| " ++ String.intercalate (" " ++ chainOp ++ " ") (ms.map Matcher.render)

/-- Modelled from the spec: `Expr.String()`, the tree's own text-rendering
capability (tree → text). -/
def Expr.render : Expr → String
  | Expr.streamMatcher sel => renderSelector sel
  | Expr.logQuery sel stages =>
      String.intercalate " " (renderSelector sel :: stages.map PipelineStage.render)
  | Expr.binOp op l r => l.render ++ " " ++ op ++ " " ++ r.render
  | Expr.agg op e => op ++ "(" ++ e.render ++ ")"

/-- `url.Values`: the request's query parameters, a map from key to the list
of values given for that key (modelled as an association list with at most
one entry per key, as a Go map). -/
def Values : Type := List (String × List String)

/-- `url.Values.Get`: the first value associated with the given key, or the
empty string when the key is absent or has no values. -/
def Values.get (v : Values) (k : String) : String :=
  match List.find? (fun p => p.1 == k) v with
  | some (_, x :: _) => x
  | _ => ""

/-- All values associated with the given key (`v[key]` on the Go map). -/
def Values.getAll (v : Values) (k : String) : List String :=
  match List.find? (fun p => p.1 == k) v with
  | some (_, xs) => xs
  | none => []

/-- `url.Values.Set`: replace the entry for the key with the single given
value (inserting it when absent). -/
def Values.set (v : Values) (k : String) (val : String) : Values :=
  match v with
  | [] => [(k, [val])]
  | (k', vs) :: rest =>
      if k' == k then (k, [val]) :: rest else (k', vs) :: Values.set rest k val

/-- Insertion into a key-sorted association list, used by `Values.encode`. -/
def insertByKey (p : String × List String) :
    List (String × List String) → List (String × List String)
  | [] => [p]
  | q :: rest => if p.1 < q.1 ∨ p.1 = q.1 then p :: q :: rest else q :: insertByKey p rest

/-- The parameter list sorted by key, as `url.Values.Encode` iterates keys in
sorted order. -/
def sortByKey (v : Values) : Values :=
  List.foldr insertByKey [] v

/-- `url.Values.Encode`: render the parameters as `k=v` pairs joined by `&`,
keys in sorted order, one pair per value. -/
def Values.encode (v : Values) : String :=
  String.intercalate "&"
    (List.foldr (fun p acc => (p.2.map (fun x => p.1 ++ "=" ++ x)) ++ acc) [] (sortByKey v))

/-- The constant `queryParam = "query"` from labels_enforcer.go. -/
def queryParam : String := "query"

/-- `enforceValues` from labels_enforcer.go: short-circuit on an empty query
parameter, parse the query, inject the constraint according to the logical
operator, re-serialize and re-encode.  The external parser `logqlv2.ParseExpr`
is a parameter. -/
def enforceValues (parse : String → Except String Expr)
    (mInfo : AuthzResponseData) (v : Values) : Except String String :=
  if v.get queryParam == "" then Except.ok v.encode
  else
    match parse (v.get queryParam) with
    | Except.error e => Except.error ("failed parsing LogQL expression: " ++ e)
    | Except.ok expr =>
        Except.ok ((v.set queryParam (injectConstraint mInfo expr).render).encode)

/-- The observable outcome of the middleware for one request: either an HTTP
server error is written (`httperr.PrometheusAPIError` with status 500) and the
next handler is never invoked, or the request is forwarded to the next handler
carrying the given raw query string. -/
inductive MwOutcome where
  | serverError : String → MwOutcome
  | forwarded : String → MwOutcome
deriving DecidableEq, Repr

/-- `WithEnforceAuthorizationLabels` from labels_enforcer.go, applied to one
request.  `ctxData` is the result of `authorization.GetData(r.Context())`
(`none` when the lookup fails); `origRaw` is the request's original
`r.URL.RawQuery`; `vals` is `r.URL.Query()`.  The JSON decoder
(`json.Unmarshal` into `AuthzResponseData`) is a parameter. -/
def withEnforceAuthorizationLabels (parse : String → Except String Expr)
    (unmarshal : String → Except String AuthzResponseData)
    (ctxData : Option String) (origRaw : String) (vals : Values) : MwOutcome :=
  match ctxData with
  | none => MwOutcome.serverError "error finding authorization label matcher"
  | some data =>
      if data == "" then MwOutcome.forwarded origRaw
      else
        match unmarshal data with
        | Except.error _ =>
            MwOutcome.serverError "error parsing authorization label matchers"
        | Except.ok mInfo =>
            match enforceValues parse mInfo vals with
            | Except.error e =>
                MwOutcome.serverError
                  ("could not enforce authorization label matchers: " ++ e)
            | Except.ok q => MwOutcome.forwarded q

/-- The matcher sequences of every Stream Selector node in the tree, in
traversal order.  A `logQuery` node owns one selector. -/
def Expr.selectors : Expr → List (List Matcher)
  | Expr.streamMatcher sel => [sel]
  | Expr.logQuery sel _ => [sel]
  | Expr.binOp _ l r => l.selectors ++ r.selectors
  | Expr.agg _ e => e.selectors

/-- The stage sequences of every Pipeline node in the tree, in traversal
order. -/
def Expr.pipelines : Expr → List (List PipelineStage)
  | Expr.streamMatcher _ => []
  | Expr.logQuery _ stages => [stages]
  | Expr.binOp _ l r => l.pipelines ++ r.pipelines
  | Expr.agg _ e => e.pipelines

/-- The total number of matchers held by Stream Selector nodes of the tree. -/
def Expr.totalSelMatchers (e : Expr) : Nat :=
  (e.selectors.map List.length).sum

/-- The total number of pipeline stages held by Pipeline nodes of the tree. -/
def Expr.totalStages (e : Expr) : Nat :=
  (e.pipelines.map List.length).sum

/-! ### Structural lemmas about the two traversals -/

/-- The AND-mode walk appends the constraint matchers to every selector,
existing matchers first. -/
theorem selectors_injectAnd (ms : List Matcher) (e : Expr) :
    (injectAnd ms e).selectors = e.selectors.map (fun sel => sel ++ ms) := by
  induction e with
  | streamMatcher sel => simp [injectAnd, Expr.selectors, appendMatchers]
  | logQuery sel stages => simp [injectAnd, Expr.selectors, appendMatchers]
  | binOp op l r ihl ihr => simp [injectAnd, Expr.selectors, ihl, ihr]
  | agg op e ih => simp [injectAnd, Expr.selectors, ih]

/-- The AND-mode walk leaves every pipeline stage sequence unchanged. -/
theorem pipelines_injectAnd (ms : List Matcher) (e : Expr) :
    (injectAnd ms e).pipelines = e.pipelines := by
  induction e with
  | streamMatcher sel => simp [injectAnd, Expr.pipelines]
  | logQuery sel stages => simp [injectAnd, Expr.pipelines]
  | binOp op l r ihl ihr => simp [injectAnd, Expr.pipelines, ihl, ihr]
  | agg op e ih => simp [injectAnd, Expr.pipelines, ih]

/-- The OR-mode walk leaves every selector's matcher sequence unchanged. -/
theorem selectors_injectOr (ms : List Matcher) (e : Expr) :
    (injectOr ms e).selectors = e.selectors := by
  induction e with
  | streamMatcher sel => simp [injectOr, Expr.selectors]
  | logQuery sel stages => simp [injectOr, Expr.selectors]
  | binOp op l r ihl ihr => simp [injectOr, Expr.selectors, ihl, ihr]
  | agg op e ih => simp [injectOr, Expr.selectors, ih]

/-- The OR-mode walk rewrites every pipeline's stage sequence through
`appendPipelineMatchers`. -/
theorem pipelines_injectOr (ms : List Matcher) (e : Expr) :
    (injectOr ms e).pipelines
      = e.pipelines.map (fun st => appendPipelineMatchers st ms logicalOr) := by
  induction e with
  | streamMatcher sel => simp [injectOr, Expr.pipelines]
  | logQuery sel stages => simp [injectOr, Expr.pipelines]
  | binOp op l r ihl ihr => simp [injectOr, Expr.pipelines, ihl, ihr]
  | agg op e ih => simp [injectOr, Expr.pipelines, ih]

/-- The AND-mode walk with an empty matcher list changes nothing. -/
theorem injectAnd_nil (e : Expr) : injectAnd [] e = e := by
  induction e with
  | streamMatcher sel => simp [injectAnd, appendMatchers]
  | logQuery sel stages => simp [injectAnd, appendMatchers]
  | binOp op l r ihl ihr => simp [injectAnd, ihl, ihr]
  | agg op e ih => simp [injectAnd, ih]

/-- The OR-mode walk with an empty matcher list changes nothing. -/
theorem injectOr_nil (e : Expr) : injectOr [] e = e := by
  induction e with
  | streamMatcher sel => simp [injectOr]
  | logQuery sel stages => simp [injectOr, appendPipelineMatchers]
  | binOp op l r ihl ihr => simp [injectOr, ihl, ihr]
  | agg op e ih => simp [injectOr, ih]

/-- With a non-empty matcher list, `appendPipelineMatchers` appends exactly
one filter stage at the end. -/
theorem appendPipelineMatchers_of_ne_nil (stages : List PipelineStage)
    (ms : List Matcher) (chainOp : String) (h : ms ≠ []) :
    appendPipelineMatchers stages ms chainOp
      = stages ++ [PipelineStage.matchersFilter chainOp ms] := by
  simp [appendPipelineMatchers, h]

/-- When the logical operator is anything but `"or"`, the dispatch picks the
AND-mode walk. -/
theorem injectConstraint_and (mInfo : AuthzResponseData) (e : Expr)
    (hop : mInfo.logicalOp ≠ logicalOr) :
    injectConstraint mInfo e = injectAnd mInfo.matchers e := by
  simp [injectConstraint, hop]

/-- When the logical operator is `"or"`, the dispatch picks the OR-mode walk. -/
theorem injectConstraint_or (mInfo : AuthzResponseData) (e : Expr)
    (hop : mInfo.logicalOp = logicalOr) :
    injectConstraint mInfo e = injectOr mInfo.matchers e := by
  simp [injectConstraint, hop]

/-! ### Lemmas about `enforceValues` and `Values` -/

/-- `enforceValues` with an empty (or absent) query parameter returns the
unchanged parameter set, re-encoded. -/
theorem enforceValues_noQuery (parse : String → Except String Expr)
    (mInfo : AuthzResponseData) (v : Values) (hq : v.get queryParam = "") :
    enforceValues parse mInfo v = Except.ok v.encode := by
  simp [enforceValues, hq]

/-- `enforceValues` after a successful parse: the query parameter is replaced
with the rendering of the injected tree and the set is re-encoded. -/
theorem enforceValues_parsed (parse : String → Except String Expr)
    (mInfo : AuthzResponseData) (v : Values) (e : Expr)
    (hq : v.get queryParam ≠ "") (hp : parse (v.get queryParam) = Except.ok e) :
    enforceValues parse mInfo v
      = Except.ok ((v.set queryParam (injectConstraint mInfo e).render).encode) := by
  simp [enforceValues, hq, hp]

/-- After `set k s`, the lookup for `k` finds exactly the entry `(k, [s])`. -/
theorem find?_set_self (v : Values) (k s : String) :
    List.find? (fun p => p.1 == k) (Values.set v k s) = some (k, [s]) := by
  induction v with
  | nil => simp [Values.set, List.find?]
  | cons p rest ih =>
      obtain ⟨k', vs⟩ := p
      by_cases h : k' = k
      · simp [Values.set, h, List.find?]
      · simp [Values.set, h, List.find?, ih]

/-- `set k s` does not disturb the lookup for any other key. -/
theorem find?_set_ne (v : Values) (k s k' : String) (h : k' ≠ k) :
    List.find? (fun p => p.1 == k') (Values.set v k s)
      = List.find? (fun p => p.1 == k') v := by
  have hb : (k == k') = false := by simp [Ne.symm h]
  induction v with
  | nil => simp [Values.set, List.find?, hb]
  | cons p rest ih =>
      obtain ⟨k'', vs⟩ := p
      by_cases h2 : k'' = k
      · subst h2
        simp [Values.set, List.find?, hb]
      · have hb2 : (k'' == k) = false := by simp [h2]
        by_cases h3 : k'' = k'
        · subst h3
          simp [Values.set, List.find?, hb2, h]
        · have hb3 : (k'' == k') = false := by simp [h3]
          simp [Values.set, List.find?, hb2, hb3, ih]

/-- After `set k s`, the values held under `k` are exactly `[s]`. -/
theorem Values.getAll_set_self (v : Values) (k s : String) :
    (v.set k s).getAll k = [s] := by
  simp [Values.getAll, find?_set_self]

/-- `set k s` does not touch the values held under any other key. -/
theorem Values.getAll_set_ne (v : Values) (k s k' : String) (h : k' ≠ k) :
    (v.set k s).getAll k' = v.getAll k' := by
  simp [Values.getAll, find?_set_ne v k s k' h]

/-- `Get` returns the first of the values held under the key. -/
theorem Values.get_of_getAll_cons (v : Values) (k x : String) (xs : List String)
    (h : v.getAll k = x :: xs) : v.get k = x := by
  unfold Values.getAll at h
  unfold Values.get
  cases hf : List.find? (fun p => p.1 == k) v with
  | none => rw [hf] at h; exact absurd h (by simp)
  | some p =>
      obtain ⟨a, ys⟩ := p
      rw [hf] at h
      simp only at h
      rw [h]

/-! ### Counting lemmas for repeated injection -/

/-- Appending `ms` to each of the lists adds `|ms|` matchers per list. -/
theorem sum_map_length_append (L : List (List Matcher)) (ms : List Matcher) :
    ((L.map (fun sel => sel ++ ms)).map List.length).sum
      = (L.map List.length).sum + L.length * ms.length := by
  induction L with
  | nil => simp
  | cons a L ih =>
      simp only [List.map_cons, List.sum_cons, List.length_append, List.length_cons, ih]
      ring

/-- Appending one stage to each of the lists adds one stage per list. -/
theorem sum_map_length_append_one (L : List (List PipelineStage)) (st : PipelineStage) :
    ((L.map (fun stages => stages ++ [st])).map List.length).sum
      = (L.map List.length).sum + L.length := by
  induction L with
  | nil => simp
  | cons a L ih =>
      simp only [List.map_cons, List.sum_cons, List.length_append, List.length_cons,
        List.length_nil, ih]
      omega

/-- One AND-mode pass grows the total matcher count by one copy of the
constraint per selector. -/
theorem totalSelMatchers_injectAnd (ms : List Matcher) (e : Expr) :
    (injectAnd ms e).totalSelMatchers
      = e.totalSelMatchers + e.selectors.length * ms.length := by
  unfold Expr.totalSelMatchers
  rw [selectors_injectAnd]
  exact sum_map_length_append _ _

/-- The AND-mode walk preserves the number of selectors. -/
theorem selectors_length_injectAnd (ms : List Matcher) (e : Expr) :
    (injectAnd ms e).selectors.length = e.selectors.length := by
  rw [selectors_injectAnd]; simp

/-- One OR-mode pass with a non-empty constraint grows the total stage count
by one stage per pipeline. -/
theorem totalStages_injectOr (ms : List Matcher) (e : Expr) (hms : ms ≠ []) :
    (injectOr ms e).totalStages = e.totalStages + e.pipelines.length := by
  unfold Expr.totalStages
  rw [pipelines_injectOr]
  have hfun : e.pipelines.map (fun st => appendPipelineMatchers st ms logicalOr)
      = e.pipelines.map (fun st => st ++ [PipelineStage.matchersFilter logicalOr ms]) := by
    exact List.map_congr_left (fun st _ => appendPipelineMatchers_of_ne_nil st ms logicalOr hms)
  rw [hfun]
  exact sum_map_length_append_one _ _

/-- The OR-mode walk preserves the number of pipelines. -/
theorem pipelines_length_injectOr (ms : List Matcher) (e : Expr) :
    (injectOr ms e).pipelines.length = e.pipelines.length := by
  rw [pipelines_injectOr]; simp

/-! ### Concrete fixtures used by the witnesses -/

/-- A sample constraint matcher, `tenant="t1"`. -/
def m0 : Matcher := ⟨MatchType.eq, "tenant", "t1"⟩

/-- A sample parsed query: the pipeline of spec section 8,
a selector `app="foo"` followed by one raw line-filter stage. -/
def e0 : Expr :=
  Expr.logQuery [⟨MatchType.eq, "app", "foo"⟩] [PipelineStage.raw "|= \"bar\""]

/-- A parser stub that accepts every query as `e0`. -/
def parseOk : String → Except String Expr := fun _ => Except.ok e0

/-- A parser stub that rejects every query. -/
def parseBad : String → Except String Expr := fun _ => Except.error "boom"

/-- A decoder stub that rejects its payload, as `json.Unmarshal` does on
`\x7b"matchers": "not-an-array"\x7d`. -/
def unmarshalBad : String → Except String AuthzResponseData :=
  fun _ => Except.error "json: cannot unmarshal string"

/-- An AND-mode constraint holding `m0` (`logicalOp` absent decodes to ""). -/
def mAnd : AuthzResponseData := ⟨[m0], ""⟩

/-- An OR-mode constraint holding `m0`. -/
def mOr : AuthzResponseData := ⟨[m0], "or"⟩

/-- An AND-mode constraint with an empty matcher set. -/
def mEmpty : AuthzResponseData := ⟨[], ""⟩

/-- A decoder stub that accepts every payload as `mAnd`. -/
def unmarshalOk : String → Except String AuthzResponseData :=
  fun _ => Except.ok mAnd

/-- Sample request parameters: a query plus one unrelated parameter. -/
def v0 : Values := [("limit", ["5"]), ("query", ["q0"])]

/-- Sample request parameters without a query. -/
def vNoQuery : Values := [("limit", ["5"])]

/-- Sample request parameters carrying two values under the query key. -/
def vMulti : Values := [("query", ["q0", "q1"]), ("limit", ["5"])]

/-! ### Claims -/

/-- C1: for every parseable query and every constraint whose `logicalOp` is
anything other than the literal "or" (including absent, decoded as ""),
enforcement runs in AND mode: the constraint's matchers are appended after the
existing matchers of every Stream Selector node, and no pipeline stage is
added. -/
theorem claim_C1_and_mode (parse : String → Except String Expr)
    (mInfo : AuthzResponseData) (v : Values) (e : Expr)
    (hop : mInfo.logicalOp ≠ logicalOr)
    (hq : v.get queryParam ≠ "")
    (hp : parse (v.get queryParam) = Except.ok e) :
    enforceValues parse mInfo v
      = Except.ok ((v.set queryParam (injectAnd mInfo.matchers e).render).encode)
    ∧ (injectAnd mInfo.matchers e).selectors
        = e.selectors.map (fun sel => sel ++ mInfo.matchers)
    ∧ (injectAnd mInfo.matchers e).pipelines = e.pipelines := by
  refine ⟨?_, selectors_injectAnd _ _, pipelines_injectAnd _ _⟩
  rw [enforceValues_parsed parse mInfo v e hq hp, injectConstraint_and mInfo e hop]

/-- C1 witness: the AND-mode theorem applied to the sample request. -/
theorem claim_C1_witness :
    mAnd.logicalOp ≠ logicalOr
    ∧ enforceValues parseOk mAnd v0
        = Except.ok ((v0.set queryParam (injectAnd mAnd.matchers e0).render).encode) :=
  ⟨by decide, (claim_C1_and_mode parseOk mAnd v0 e0 (by decide) (by decide) rfl).1⟩

/-- C2 (counterexample): with `logicalOp = "or"` and an empty constraint
matcher set, the Pipeline node of the query `⟨[], []⟩` gains no stage at all —
its stage sequence stays `[]` instead of growing by exactly one OR filter
stage, refuting the claim for that constraint payload. -/
theorem claim_C2_counterexample :
    (injectOr (AuthzResponseData.mk [] logicalOr).matchers (Expr.logQuery [] [])).pipelines
        = [[]]
    ∧ (injectOr (AuthzResponseData.mk [] logicalOr).matchers (Expr.logQuery [] [])).pipelines
        ≠ (Expr.logQuery [] []).pipelines.map
            (fun st => st ++ [PipelineStage.matchersFilter logicalOr
              (AuthzResponseData.mk [] logicalOr).matchers]) := by
  decide

/-- C2 (amended): for every parseable query and every constraint payload with
`logicalOp = "or"` and a NON-EMPTY matcher set, every Pipeline node gains
exactly one new filter stage appended at the end of its existing stage
sequence, combining the constraint's matchers by OR, and every Stream
Selector's matcher sequence is left unchanged. -/
theorem claim_C2_or_mode (parse : String → Except String Expr)
    (mInfo : AuthzResponseData) (v : Values) (e : Expr)
    (hop : mInfo.logicalOp = logicalOr)
    (hms : mInfo.matchers ≠ [])
    (hq : v.get queryParam ≠ "")
    (hp : parse (v.get queryParam) = Except.ok e) :
    enforceValues parse mInfo v
      = Except.ok ((v.set queryParam (injectOr mInfo.matchers e).render).encode)
    ∧ (injectOr mInfo.matchers e).pipelines
        = e.pipelines.map
            (fun st => st ++ [PipelineStage.matchersFilter logicalOr mInfo.matchers])
    ∧ (injectOr mInfo.matchers e).selectors = e.selectors := by
  refine ⟨?_, ?_, selectors_injectOr _ _⟩
  · rw [enforceValues_parsed parse mInfo v e hq hp, injectConstraint_or mInfo e hop]
  · rw [pipelines_injectOr]
    exact List.map_congr_left
      (fun st _ => appendPipelineMatchers_of_ne_nil st mInfo.matchers logicalOr hms)

/-- C2 witness: the amended OR-mode theorem applied to the sample request. -/
theorem claim_C2_witness :
    mOr.logicalOp = logicalOr ∧ mOr.matchers ≠ []
    ∧ enforceValues parseOk mOr v0
        = Except.ok ((v0.set queryParam (injectOr mOr.matchers e0).render).encode) :=
  ⟨rfl, by decide, (claim_C2_or_mode parseOk mOr v0 e0 rfl (by decide) (by decide) rfl).1⟩

/-- C3: for every parseable query and every constraint whose matcher set is
empty, in either mode, injection is a no-op: the tree is structurally
unchanged, it renders identically, and the enforced query parameter is the
rendering of the unmodified parsed tree. -/
theorem claim_C3_empty_constraint_noop (parse : String → Except String Expr)
    (mInfo : AuthzResponseData) (v : Values) (e : Expr)
    (hms : mInfo.matchers = [])
    (hq : v.get queryParam ≠ "")
    (hp : parse (v.get queryParam) = Except.ok e) :
    injectConstraint mInfo e = e
    ∧ (injectConstraint mInfo e).render = e.render
    ∧ enforceValues parse mInfo v = Except.ok ((v.set queryParam e.render).encode) := by
  have h : injectConstraint mInfo e = e := by
    unfold injectConstraint
    rw [hms]
    split
    · exact injectOr_nil e
    · exact injectAnd_nil e
  refine ⟨h, by rw [h], ?_⟩
  rw [enforceValues_parsed parse mInfo v e hq hp, h]

/-- C3 witness: the empty-constraint theorem applied to the sample request. -/
theorem claim_C3_witness :
    injectConstraint mEmpty e0 = e0
    ∧ enforceValues parseOk mEmpty v0
        = Except.ok ((v0.set queryParam e0.render).encode) :=
  ⟨(claim_C3_empty_constraint_noop parseOk mEmpty v0 e0 rfl (by decide) rfl).1,
   (claim_C3_empty_constraint_noop parseOk mEmpty v0 e0 rfl (by decide) rfl).2.2⟩

/-- C4: `enforceValues` fails exactly when the query text is non-empty and
does not parse; the error wraps the parser's message; the middleware turns
that error into a server error and never forwards the request; after a
successful parse nothing else can fail. -/
theorem claim_C4_error_iff_parse_failure (parse : String → Except String Expr)
    (unmarshal : String → Except String AuthzResponseData)
    (mInfo : AuthzResponseData) (v : Values) (data origRaw : String) :
    ((∃ msg, enforceValues parse mInfo v = Except.error msg)
        ↔ v.get queryParam ≠ "" ∧ ∃ pe, parse (v.get queryParam) = Except.error pe)
    ∧ (∀ pe, v.get queryParam ≠ "" → parse (v.get queryParam) = Except.error pe →
        enforceValues parse mInfo v
          = Except.error ("failed parsing LogQL expression: " ++ pe))
    ∧ (∀ msg, data ≠ "" → unmarshal data = Except.ok mInfo →
        enforceValues parse mInfo v = Except.error msg →
        withEnforceAuthorizationLabels parse unmarshal (some data) origRaw v
            = MwOutcome.serverError
                ("could not enforce authorization label matchers: " ++ msg)
          ∧ ∀ s, withEnforceAuthorizationLabels parse unmarshal (some data) origRaw v
              ≠ MwOutcome.forwarded s) := by
  refine ⟨⟨?_, ?_⟩, ?_, ?_⟩
  · rintro ⟨msg, hmsg⟩
    by_cases hq : v.get queryParam = ""
    · simp [enforceValues, hq] at hmsg
    · cases hp : parse (v.get queryParam) with
      | error pe => exact ⟨hq, pe, rfl⟩
      | ok e => simp [enforceValues, hq, hp] at hmsg
  · rintro ⟨hq, pe, hp⟩
    exact ⟨"failed parsing LogQL expression: " ++ pe, by simp [enforceValues, hq, hp]⟩
  · intro pe hq hp
    simp [enforceValues, hq, hp]
  · intro msg hd hu he
    constructor
    · simp [withEnforceAuthorizationLabels, hd, hu, he]
    · intro s
      simp [withEnforceAuthorizationLabels, hd, hu, he]

/-- C4 witness: a failing parse surfaces as the wrapped syntax error and the
middleware responds with a server error without forwarding. -/
theorem claim_C4_witness :
    enforceValues parseBad mAnd v0
        = Except.error "failed parsing LogQL expression: boom"
    ∧ withEnforceAuthorizationLabels parseBad unmarshalOk (some "payload") "raw" v0
        = MwOutcome.serverError
            ("could not enforce authorization label matchers: "
              ++ "failed parsing LogQL expression: boom") := by
  have h := claim_C4_error_iff_parse_failure parseBad unmarshalOk mAnd v0 "payload" "raw"
  have h1 := h.2.1 "boom" (by decide) rfl
  exact ⟨h1, (h.2.2 ("failed parsing LogQL expression: boom") (by decide) rfl h1).1⟩

/-- C5: a non-empty authorization payload that fails to decode yields a
server error ("error parsing authorization label matchers") and the next
handler is never invoked; a malformed constraint is never treated as the
absence of a constraint. -/
theorem claim_C5_malformed_payload_rejected (parse : String → Except String Expr)
    (unmarshal : String → Except String AuthzResponseData)
    (data origRaw : String) (vals : Values)
    (hd : data ≠ "") (hu : ∃ err, unmarshal data = Except.error err) :
    withEnforceAuthorizationLabels parse unmarshal (some data) origRaw vals
        = MwOutcome.serverError "error parsing authorization label matchers"
    ∧ ∀ s, withEnforceAuthorizationLabels parse unmarshal (some data) origRaw vals
        ≠ MwOutcome.forwarded s := by
  obtain ⟨err, hu⟩ := hu
  constructor
  · simp [withEnforceAuthorizationLabels, hd, hu]
  · intro s
    simp [withEnforceAuthorizationLabels, hd, hu]

/-- C5 witness: the malformed-payload theorem applied to a concrete request. -/
theorem claim_C5_witness :
    withEnforceAuthorizationLabels parseOk unmarshalBad (some "garbage") "raw" v0
        = MwOutcome.serverError "error parsing authorization label matchers" :=
  (claim_C5_malformed_payload_rejected parseOk unmarshalBad "garbage" "raw" v0
    (by decide) ⟨"json: cannot unmarshal string", rfl⟩).1

/-- C6: a present but empty authorization payload skips enforcement entirely:
the request is forwarded with its raw query string untouched and no error is
raised. -/
theorem claim_C6_empty_payload_passthrough (parse : String → Except String Expr)
    (unmarshal : String → Except String AuthzResponseData)
    (origRaw : String) (vals : Values) :
    withEnforceAuthorizationLabels parse unmarshal (some "") origRaw vals
        = MwOutcome.forwarded origRaw
    ∧ ∀ msg, withEnforceAuthorizationLabels parse unmarshal (some "") origRaw vals
        ≠ MwOutcome.serverError msg := by
  constructor
  · simp [withEnforceAuthorizationLabels]
  · intro msg
    simp [withEnforceAuthorizationLabels]

/-- C7: an empty (or absent) query parameter short-circuits `enforceValues`:
no parsing, no injection, the parameter set is returned unchanged and no
error occurs. -/
theorem claim_C7_empty_query_noop (parse : String → Except String Expr)
    (mInfo : AuthzResponseData) (v : Values) (hq : v.get queryParam = "") :
    enforceValues parse mInfo v = Except.ok v.encode := by
  simp [enforceValues, hq]

/-- C7 witness: the short-circuit theorem applied to a query-less request. -/
theorem claim_C7_witness :
    enforceValues parseBad mAnd vNoQuery = Except.ok vNoQuery.encode :=
  claim_C7_empty_query_noop parseBad mAnd vNoQuery (by decide)

/-- C8: injection is not idempotent.  With a non-empty constraint matcher
set, a second AND-mode pass over a query with at least one Stream Selector
strictly increases the total matcher count (each selector now carries two
copies of the constraint), and a second OR-mode pass over a query with at
least one Pipeline strictly increases the total stage count. -/
theorem claim_C8_not_idempotent (ms : List Matcher) (e : Expr) (hms : ms ≠ []) :
    (e.selectors ≠ [] →
        (injectAnd ms (injectAnd ms e)).totalSelMatchers
            > (injectAnd ms e).totalSelMatchers
        ∧ (injectAnd ms (injectAnd ms e)).selectors
            = e.selectors.map (fun sel => (sel ++ ms) ++ ms))
    ∧ (e.pipelines ≠ [] →
        (injectOr ms (injectOr ms e)).totalStages > (injectOr ms e).totalStages) := by
  constructor
  · intro hsel
    constructor
    · rw [totalSelMatchers_injectAnd ms (injectAnd ms e), selectors_length_injectAnd]
      have h1 : 0 < e.selectors.length := List.length_pos.mpr hsel
      have h2 : 0 < ms.length := List.length_pos.mpr hms
      have h3 := Nat.mul_pos h1 h2
      omega
    · rw [selectors_injectAnd, selectors_injectAnd, List.map_map]
      rfl
  · intro hpipe
    rw [totalStages_injectOr ms (injectOr ms e) hms, pipelines_length_injectOr]
    have h1 : 0 < e.pipelines.length := List.length_pos.mpr hpipe
    omega

/-- C8 witness: double injection on the sample pipeline query grows both the
matcher count (AND mode) and the stage count (OR mode). -/
theorem claim_C8_witness :
    (injectAnd [m0] (injectAnd [m0] e0)).totalSelMatchers
        > (injectAnd [m0] e0).totalSelMatchers
    ∧ (injectOr [m0] (injectOr [m0] e0)).totalStages
        > (injectOr [m0] e0).totalStages :=
  ⟨((claim_C8_not_idempotent [m0] e0 (by decide)).1 (by decide)).1,
   (claim_C8_not_idempotent [m0] e0 (by decide)).2 (by decide)⟩

/-- C9: on a successful enforcement only the query parameter is replaced by
the rendering of the injected tree; every other parameter keeps its values in
the re-encoded output. -/
theorem claim_C9_only_query_replaced (parse : String → Except String Expr)
    (mInfo : AuthzResponseData) (v : Values) (e : Expr)
    (hq : v.get queryParam ≠ "")
    (hp : parse (v.get queryParam) = Except.ok e) :
    enforceValues parse mInfo v
      = Except.ok ((v.set queryParam (injectConstraint mInfo e).render).encode)
    ∧ ∀ k, k ≠ queryParam →
        (v.set queryParam (injectConstraint mInfo e).render).getAll k = v.getAll k :=
  ⟨enforceValues_parsed parse mInfo v e hq hp,
   fun k hk => Values.getAll_set_ne v queryParam ((injectConstraint mInfo e).render) k hk⟩

/-- C9 witness: the frame theorem applied to the sample request; the "limit"
parameter survives untouched. -/
theorem claim_C9_witness :
    enforceValues parseOk mAnd v0
        = Except.ok ((v0.set queryParam (injectConstraint mAnd e0).render).encode)
    ∧ (v0.set queryParam (injectConstraint mAnd e0).render).getAll "limit"
        = v0.getAll "limit" :=
  ⟨(claim_C9_only_query_replaced parseOk mAnd v0 e0 (by decide) rfl).1,
   (claim_C9_only_query_replaced parseOk mAnd v0 e0 (by decide) rfl).2 "limit" (by decide)⟩

/-- C10: when the query key carries several values only the first one is
parsed and rewritten, and the output parameter set holds the query key with
exactly that single rewritten value; the additional values are dropped. -/
theorem claim_C10_multi_query_values (parse : String → Except String Expr)
    (mInfo : AuthzResponseData) (v : Values) (e : Expr)
    (q1 : String) (rest : List String)
    (hall : v.getAll queryParam = q1 :: rest)
    (hq1 : q1 ≠ "")
    (hp : parse q1 = Except.ok e) :
    enforceValues parse mInfo v
      = Except.ok ((v.set queryParam (injectConstraint mInfo e).render).encode)
    ∧ (v.set queryParam (injectConstraint mInfo e).render).getAll queryParam
        = [(injectConstraint mInfo e).render] := by
  have hget : v.get queryParam = q1 :=
    Values.get_of_getAll_cons v queryParam q1 rest hall
  constructor
  · apply enforceValues_parsed
    · rw [hget]; exact hq1
    · rw [hget]; exact hp
  · exact Values.getAll_set_self v queryParam ((injectConstraint mInfo e).render)

/-- C10 witness: the multi-value theorem applied to a request carrying two
query values; after enforcement the query key holds the single rewritten
first value. -/
theorem claim_C10_witness :
    enforceValues parseOk mAnd vMulti
        = Except.ok ((vMulti.set queryParam (injectConstraint mAnd e0).render).encode)
    ∧ (vMulti.set queryParam (injectConstraint mAnd e0).render).getAll queryParam
        = [(injectConstraint mAnd e0).render] :=
  claim_C10_multi_query_values parseOk mAnd vMulti e0 "q0" ["q1"] rfl (by decide) rfl
